import Mathlib

/-!
Shallow embedding of the kino adaptive-streaming core (crates
`psm-player-core` and `kino-core`): player state machine, buffer manager,
ABR engine (throughput / BOLA rules and the engine wrapper), QoE scoring,
manifest extraction, and the player session operations.

Conventions of the embedding:
* Rust `f64` quantities that the claims reason about through comparisons
  and exact decimal constants (positions, durations, buffer levels) are
  embedded as `ℚ`; the BOLA score, which uses a natural logarithm and is
  `f64::NEG_INFINITY` for a zero bandwidth (`ln(0) = -inf`), is embedded
  as `EReal`, with `⊥` standing for negative infinity.
* `u64`/`usize` are embedded as `Nat`; a Rust `as u64` cast of a
  non-negative float is embedded as the floor.  In particular the EWMA
  update `((e as f64 * 0.8) + (s as f64 * 0.2)) as u64` is embedded as
  `(4 * e + s) / 5` in `Nat` (the floor of the exact real value), and the
  safety-factor computation `(estimate as f64 * 0.8) as u64` as
  `estimate * 4 / 5`.
* `BTreeMap<u64, _>` is embedded as a list sorted by strictly ascending
  key, with iteration in that order; `BTreeMap::insert` replaces an entry
  with the same key.
* Fallible Rust functions returning `Result` are embedded with `Except`.
-/

namespace Kino

/-- Player state machine states (`psm-player-core/src/types.rs`). -/
inductive PlayerState where
  | idle
  | loading
  | buffering
  | playing
  | paused
  | seeking
  | ended
  | error
deriving DecidableEq, Repr

/-- Embeds `PlayerState::can_transition_to` from
`psm-player-core/src/types.rs`: the `matches!` over permitted edges. -/
def PlayerState.can_transition_to : PlayerState → PlayerState → Bool
  | .idle, .loading => true
  | .loading, .buffering => true
  | .loading, .error => true
  | .buffering, .playing => true
  | .buffering, .paused => true
  | .buffering, .error => true
  | .playing, .paused => true
  | .playing, .buffering => true
  | .playing, .seeking => true
  | .playing, .ended => true
  | .playing, .error => true
  | .paused, .playing => true
  | .paused, .seeking => true
  | .paused, .idle => true
  | .seeking, .buffering => true
  | .seeking, .playing => true
  | .seeking, .error => true
  | .ended, .idle => true
  | .ended, .seeking => true
  | .error, .idle => true
  | .error, .loading => true
  | _, _ => false

/-- Embeds the `Display` implementation for `PlayerState`. -/
def PlayerState.toDisplay : PlayerState → String
  | .idle => "idle"
  | .loading => "loading"
  | .buffering => "buffering"
  | .playing => "playing"
  | .paused => "paused"
  | .seeking => "seeking"
  | .ended => "ended"
  | .error => "error"

/-- Embeds the variants of `kino-core/src/error.rs` that the modelled
operations can produce. -/
inductive Err where
  | manifestParse (msg : String)
  | invalidManifest (msg : String)
  | invalidStateTransition (fromState toState : String)
deriving DecidableEq, Repr

/-- Video resolution (`psm-player-core/src/types.rs`). -/
structure Resolution where
  width : Nat
  height : Nat
deriving DecidableEq, Repr

/-- A rendition of the ABR ladder, restricted to the fields the modelled
operations read (`psm-player-core/src/types.rs`). -/
structure Rendition where
  id : String
  bandwidth : Nat
  resolution : Option Resolution
deriving DecidableEq, Repr

/-- Network info used by ABR decisions (`psm-player-core/src/types.rs`). -/
structure NetworkInfo where
  bandwidth_estimate : Nat
deriving DecidableEq, Repr

/-- Context for ABR decisions (`psm-player-core/src/abr.rs`). -/
structure AbrContext where
  buffer_level : ℚ
  screen_width : Option Nat
  max_bitrate : Nat
  network : NetworkInfo
deriving DecidableEq, Repr

/-! ## Buffer manager (`psm-player-core/src/buffer.rs`) -/

/-- A buffered segment: the metadata the buffer manager reads (sequence
number, duration in seconds, byte length) together with the timeline
placement and the consumed flag. -/
structure BufferedSegment where
  number : Nat
  duration : ℚ
  size : Nat
  start_time : ℚ
  end_time : ℚ
  consumed : Bool
deriving DecidableEq, Repr

/-- Buffer configuration (`BufferConfig`). -/
structure BufferConfig where
  min_buffer_time : ℚ := 10
  max_buffer_time : ℚ := 30
  rebuffer_threshold : ℚ := 2
  max_memory_bytes : Nat := 268435456
deriving DecidableEq, Repr

/-- The buffer manager state: the ordered segment map (sorted by sequence
number, the `BTreeMap` iteration order) and the aggregate counters. -/
structure BufferManager where
  config : BufferConfig
  segments : List BufferedSegment
  playback_position : ℚ
  buffered_duration : ℚ
  memory_used : Nat
deriving DecidableEq, Repr

/-- Embeds `BufferManager::new`. -/
def BufferManager.new (config : BufferConfig) : BufferManager :=
  { config := config
    segments := []
    playback_position := 0
    buffered_duration := 0
    memory_used := 0 }

/-- Insertion into the key-sorted segment list; an entry with the same key
is replaced, as `BTreeMap::insert` does. -/
def insertSegment (s : BufferedSegment) : List BufferedSegment → List BufferedSegment
  | [] => [s]
  | x :: xs =>
    if s.number < x.number then s :: x :: xs
    else if s.number = x.number then s :: xs
    else x :: insertSegment s xs

/-- Removal of the entry holding key `seq` (at most one exists in a sorted
map), subtracting its byte length and duration from the counters: the loop
body of `evict_segments` and `cleanup_consumed`. -/
def BufferManager.removeSeq (b : BufferManager) (seq : Nat) : BufferManager :=
  match b.segments.find? (fun s => s.number == seq) with
  | some seg =>
      { b with
        segments := b.segments.eraseP (fun s => s.number == seq)
        memory_used := b.memory_used - seg.size
        buffered_duration := b.buffered_duration - seg.duration }
  | none => b

/-- The candidate-collection loop of `evict_segments`: walk segments in
ascending key order, stop once enough bytes are freed, and pick segments
that are consumed or end before `playback_position - 5`. -/
def collectEvict (playback : ℚ) (needed : Nat) :
    List BufferedSegment → Nat → List Nat
  | [], _ => []
  | x :: xs, freed =>
    if needed ≤ freed then []
    else if x.consumed || decide (x.end_time < playback - 5) then
      x.number :: collectEvict playback needed xs (freed + x.size)
    else collectEvict playback needed xs freed

/-- Embeds `BufferManager::evict_segments` (always returns `Ok`, so the
embedding returns the new state directly). -/
def BufferManager.evict_segments (b : BufferManager) (needed : Nat) : BufferManager :=
  let toRemove := collectEvict b.playback_position needed b.segments 0
  toRemove.foldl BufferManager.removeSeq b

/-- Embeds `BufferManager::add_segment` for a segment with sequence number
`number`, duration `dur` seconds and `size` data bytes: evict when the
memory cap would be exceeded, stitch the start time to the last segment's
end time, insert, and bump both counters.  The insertion is unconditional
(best effort) even when eviction freed nothing. -/
def BufferManager.add_segment (b : BufferManager) (number : Nat) (dur : ℚ)
    (size : Nat) : BufferManager :=
  let b1 := if b.config.max_memory_bytes < b.memory_used + size
            then b.evict_segments size else b
  let start := match b1.segments.getLast? with
               | some last => last.end_time
               | none => 0
  let seg : BufferedSegment :=
    { number := number
      duration := dur
      size := size
      start_time := start
      end_time := start + dur
      consumed := false }
  { b1 with
    segments := insertSegment seg b1.segments
    buffered_duration := b1.buffered_duration + dur
    memory_used := b1.memory_used + size }

/-- Embeds `BufferManager::consume_segment`: mark the entry with the given
sequence number (if any) as consumed; the counters are not touched. -/
def BufferManager.consume_segment (b : BufferManager) (seq : Nat) : BufferManager :=
  { b with
    segments := b.segments.map
      (fun s => if s.number = seq then { s with consumed := true } else s) }

/-- Embeds `BufferManager::cleanup_consumed`: remove consumed segments
ending before `playback_pos - 10`. -/
def BufferManager.cleanup_consumed (b : BufferManager) (pos : ℚ) : BufferManager :=
  let toRemove :=
    (b.segments.filter
      (fun s => s.consumed && decide (s.end_time < pos - 10))).map
      (fun s => s.number)
  toRemove.foldl BufferManager.removeSeq b

/-- Embeds `BufferManager::update_position`: set the playback position,
then clean up consumed segments far behind it. -/
def BufferManager.update_position (b : BufferManager) (pos : ℚ) : BufferManager :=
  BufferManager.cleanup_consumed { b with playback_position := pos } pos

/-- Embeds `BufferManager::get_segment_at`: the first segment whose
half-open timeline interval contains `time`. -/
def BufferManager.get_segment_at (b : BufferManager) (time : ℚ) :
    Option BufferedSegment :=
  b.segments.find? (fun s => decide (s.start_time ≤ time) && decide (time < s.end_time))

/-- Embeds `BufferManager::clear` (the fetch queue, which no modelled
operation reads, is omitted). -/
def BufferManager.clear (b : BufferManager) : BufferManager :=
  { b with segments := [], buffered_duration := 0, memory_used := 0 }

/-- Embeds `BufferManager::seek`: set the position; report whether it is
buffered; clear the whole buffer when it is not.  The Rust function always
returns `Ok`, so the embedding returns the flag and the new state. -/
def BufferManager.seek (b : BufferManager) (position : ℚ) : Bool × BufferManager :=
  let b1 := { b with playback_position := position }
  let is_buffered := (b1.get_segment_at position).isSome
  if is_buffered then (true, b1) else (false, b1.clear)

/-- One buffer operation of the sequences claim C2 quantifies over. -/
inductive BufferOp where
  | add (number : Nat) (duration : ℚ) (size : Nat)
  | consume (seq : Nat)
  | updatePos (pos : ℚ)
deriving DecidableEq, Repr

/-- Apply one buffer operation. -/
def BufferManager.applyOp (b : BufferManager) : BufferOp → BufferManager
  | .add number duration size => b.add_segment number duration size
  | .consume seq => b.consume_segment seq
  | .updatePos pos => b.update_position pos

/-- Run a sequence of buffer operations. -/
def BufferManager.runOps (b : BufferManager) (ops : List BufferOp) : BufferManager :=
  ops.foldl BufferManager.applyOp b

/-- Checks, along the run, that every `add` uses a sequence number that is
not currently buffered (so no `BTreeMap::insert` replacement happens). -/
def BufferManager.freshRun (b : BufferManager) : List BufferOp → Bool
  | [] => true
  | op :: rest =>
    (match op with
     | .add n _ _ => b.segments.all (fun s => s.number != n)
     | _ => true) && BufferManager.freshRun (b.applyOp op) rest

/-- Sum of the byte lengths of the buffered segments. -/
def segSizes (l : List BufferedSegment) : Nat :=
  (l.map (fun s => s.size)).sum

/-- Sum of the durations of the buffered segments. -/
def segDurations (l : List BufferedSegment) : ℚ :=
  (l.map (fun s => s.duration)).sum

/-- Sum of the durations of the buffered segments not marked consumed. -/
def segUnconsumedDurations (l : List BufferedSegment) : ℚ :=
  ((l.filter (fun s => !s.consumed)).map (fun s => s.duration)).sum

/-- The segment list is sorted by strictly ascending sequence number (the
`BTreeMap` key invariant). -/
def sortedKeys (l : List BufferedSegment) : Prop :=
  l.Pairwise (fun a b => a.number < b.number)

/-- The accounting invariant of the buffer manager: both counters equal
the sums over the currently buffered segments, and the map is key-sorted. -/
def goodBuffer (b : BufferManager) : Prop :=
  b.memory_used = segSizes b.segments ∧
  b.buffered_duration = segDurations b.segments ∧
  sortedKeys b.segments

/-! ## Player session (`kino-core/src/session.rs`) -/

/-- The analytics events the modelled session operations emit
(`AnalyticsEvent::StateChange` and `AnalyticsEvent::Seek`). -/
inductive AnalyticsEvent where
  | stateChange (fromState toState : PlayerState) (position : ℚ)
  | seekEvent (fromPos toPos : ℚ)
deriving DecidableEq, Repr

/-- The session fields the modelled operations read and write. -/
structure SessionState where
  state : PlayerState
  position : ℚ
  duration : Option ℚ
  buffer : BufferManager
  analytics_enabled : Bool
deriving DecidableEq, Repr

/-- Embeds `PlayerSession::set_state`: check `can_transition_to`; on
failure return `InvalidStateTransition` and leave the session unchanged;
on success write the state and emit a `StateChange` event when analytics
is enabled. -/
def SessionState.set_state (s : SessionState) (new_state : PlayerState) :
    Except Err Unit × SessionState × List AnalyticsEvent :=
  if s.state.can_transition_to new_state then
    (.ok (), { s with state := new_state },
      if s.analytics_enabled
      then [AnalyticsEvent.stateChange s.state new_state s.position]
      else [])
  else
    (.error (Err.invalidStateTransition s.state.toDisplay new_state.toDisplay), s, [])

/-- Rust `f64::clamp(min, max)`: `min` when below, `max` when above. -/
def ratClamp (x lo hi : ℚ) : ℚ :=
  if x < lo then lo else if hi < x then hi else x

/-- The clamping step at the top of `PlayerSession::seek`: clamp to
`[0, duration]` when the duration is known, else `max(position, 0)`. -/
def SessionState.seek_clamped (s : SessionState) (position : ℚ) : ℚ :=
  match s.duration with
  | some dur => ratClamp position 0 dur
  | none => max position 0

/-- Embeds `PlayerSession::seek`: clamp the target; transition to
`Seeking` (the `?` operator returns the error before anything else
happens); run `buffer.seek`; overwrite `position` with the clamped target;
emit `Seek` with the `from` field read back from the already-overwritten
position; finally transition to `Playing` when the target was buffered
and the session was playing, else to `Buffering`. -/
def SessionState.seek (s : SessionState) (position : ℚ) :
    Except Err Unit × SessionState × List AnalyticsEvent :=
  let clamped := s.seek_clamped position
  let was_playing := s.state = PlayerState.playing
  match s.set_state PlayerState.seeking with
  | (.error e, s1, evs1) => (.error e, s1, evs1)
  | (.ok _, s1, evs1) =>
    let seekRes := s1.buffer.seek clamped
    let s2 := { s1 with buffer := seekRes.2, position := clamped }
    let evs2 := if s2.analytics_enabled
                then [AnalyticsEvent.seekEvent s2.position clamped]
                else []
    let step3 := if seekRes.1 && was_playing
                 then s2.set_state PlayerState.playing
                 else s2.set_state PlayerState.buffering
    (step3.1, step3.2.1, evs1 ++ evs2 ++ step3.2.2)

/-! ## ABR engine (`psm-player-core/src/abr.rs`) -/

/-- A bandwidth measurement: the downloaded byte count and the elapsed
time in seconds (`duration.as_secs_f64()`). -/
structure BandwidthMeasurement where
  bytes : Nat
  duration : ℚ
deriving DecidableEq, Repr

/-- Embeds `BandwidthMeasurement::throughput_bps`: `8·bytes / duration`
truncated to `u64`, and `0` when the duration is not positive. -/
def BandwidthMeasurement.throughput_bps (m : BandwidthMeasurement) : Nat :=
  if 0 < m.duration then (⌊(8 * m.bytes : ℚ) / m.duration⌋).toNat else 0

/-- The mutable fields of `AbrEngine` that the modelled operations touch
(the boxed algorithm is passed explicitly where needed). -/
structure AbrEngineState where
  bandwidth_history : List BandwidthMeasurement
  max_history : Nat
  bandwidth_estimate : Nat
  last_selection : Option Nat
  stability_counter : Nat
deriving DecidableEq, Repr

/-- Embeds the field initialisation of `AbrEngine::new`. -/
def AbrEngineState.new : AbrEngineState :=
  { bandwidth_history := []
    max_history := 20
    bandwidth_estimate := 0
    last_selection := none
    stability_counter := 0 }

/-- Embeds `AbrEngine::record_measurement`: push the sample into the ring
of capacity `max_history` (dropping the oldest when full), seed the
estimate with the first sample, and otherwise apply the EWMA
`e ← 0.8·e + 0.2·sample` truncated to `u64` (that is `(4·e + sample) / 5`
in `Nat`). -/
def AbrEngineState.record_measurement (e : AbrEngineState) (bytes : Nat)
    (duration : ℚ) : AbrEngineState :=
  let m : BandwidthMeasurement := { bytes := bytes, duration := duration }
  let hist := if e.max_history ≤ e.bandwidth_history.length
              then e.bandwidth_history.drop 1 ++ [m]
              else e.bandwidth_history ++ [m]
  let sample := m.throughput_bps
  let est := if e.bandwidth_estimate = 0 then sample
             else (4 * e.bandwidth_estimate + sample) / 5
  { e with bandwidth_history := hist, bandwidth_estimate := est }

/-- Rust `Iterator::max_by_key` over renditions keyed by bandwidth: the
last element among several equally-maximal ones is returned. -/
def max_by_bandwidth : List Rendition → Option Rendition
  | [] => none
  | x :: xs =>
    match max_by_bandwidth xs with
    | none => some x
    | some m => if x.bandwidth ≤ m.bandwidth then some m else some x

/-- The screen-resolution filter of `ThroughputAlgorithm::select_rendition`:
keep a rendition unless both its resolution and the context's screen width
are present and the width exceeds the screen. -/
def resolutionFits (r : Rendition) (ctx : AbrContext) : Bool :=
  match r.resolution, ctx.screen_width with
  | some res, some w => res.width ≤ w
  | _, _ => true

/-- The effective bitrate cap of `ThroughputAlgorithm::select_rendition`:
80 percent of the context's bandwidth estimate, further capped by
`max_bitrate` when that is non-zero. -/
def throughputCap (ctx : AbrContext) : Nat :=
  let available := ctx.network.bandwidth_estimate * 4 / 5
  if 0 < ctx.max_bitrate then min ctx.max_bitrate available else available

/-- The filtered rendition list of `ThroughputAlgorithm::select_rendition`:
bandwidth within the cap and resolution within the screen. -/
def throughputEligible (renditions : List Rendition) (ctx : AbrContext) :
    List Rendition :=
  (renditions.filter (fun r => r.bandwidth ≤ throughputCap ctx)).filter
    (fun r => resolutionFits r ctx)

/-- Embeds `ThroughputAlgorithm::select_rendition`: the highest-bandwidth
rendition that passes both filters; `none` when no rendition passes. -/
def ThroughputAlgorithm.select_rendition (renditions : List Rendition)
    (ctx : AbrContext) : Option Rendition :=
  max_by_bandwidth (throughputEligible renditions ctx)

/-- BOLA `buffer_min` parameter (seconds). -/
def bola_buffer_min : ℚ := 5

/-- The skip test in the BOLA loop: a rendition is skipped when
`max_bitrate` is non-zero and its bandwidth exceeds it. -/
def bolaEligible (ctx : AbrContext) (r : Rendition) : Bool :=
  !(decide (0 < ctx.max_bitrate) && decide (ctx.max_bitrate < r.bandwidth))

/-- The BOLA objective `(V·ln(bandwidth) − buffer) / (bandwidth/1e6 + γ)`
with `V = 0.93`, `γ = 5.0`.  In `f64`, `ln(0) = -inf` propagates through
the multiplication, subtraction and the division by the positive
denominator, so a zero-bandwidth rendition scores negative infinity; the
embedding uses `EReal` with `⊥` for that value and the real formula for
every positive bandwidth. -/
noncomputable def bolaScore (buffer : ℚ) (r : Rendition) : EReal :=
  if r.bandwidth = 0 then ⊥
  else ((0.93 * Real.log r.bandwidth - (buffer : ℝ)) /
    ((r.bandwidth : ℝ) / 1000000 + 5) : ℝ)

/-- The best-score loop of `BolaAlgorithm::select_rendition`: iterate in
order, skipping ineligible renditions, installing a rendition as `best`
exactly when its score strictly exceeds `best_score`.  The Rust
`best_score` starts at `f64::NEG_INFINITY` (`⊥` here), so a rendition
whose own score is negative infinity is never installed. -/
noncomputable def bolaLoop (buffer : ℚ) (ctx : AbrContext) :
    List Rendition → Option Rendition → EReal → Option Rendition
  | [], best, _ => best
  | r :: rest, best, best_score =>
    if bolaEligible ctx r then
      if best_score < bolaScore buffer r then
        bolaLoop buffer ctx rest (some r) (bolaScore buffer r)
      else bolaLoop buffer ctx rest best best_score
    else bolaLoop buffer ctx rest best best_score

/-- Embeds `BolaAlgorithm::select_rendition`: run the best-score loop
from `best = None`, `best_score = NEG_INFINITY`, but when the buffer is
below `buffer_min` return the FIRST rendition of the list instead.  (The
Rust code computes the loop result unconditionally and then discards it
in the low-buffer branch; the embedding inlines the discarded value into
the high-buffer branch.) -/
noncomputable def BolaAlgorithm.select_rendition (renditions : List Rendition)
    (ctx : AbrContext) : Option Rendition :=
  if renditions = [] then none
  else if ctx.buffer_level < bola_buffer_min then renditions.head?
  else bolaLoop ctx.buffer_level ctx renditions none ⊥

/-- Embeds `AbrEngine::select_rendition`.  The boxed `dyn AbrAlgorithm`
is passed as the function `algo`.  Empty slices return `none`; the inner
pick is located by id; the oscillation damper returns
`renditions.get(last)` (which is `none` when the stored index is beyond
the current slice) until three differing picks accumulate. -/
def AbrEngineState.select_rendition
    (algo : List Rendition → AbrContext → Option Rendition)
    (e : AbrEngineState) (renditions : List Rendition) (ctx : AbrContext) :
    Option Rendition × AbrEngineState :=
  if renditions = [] then (none, e)
  else
    match algo renditions ctx with
    | none => (none, e)
    | some selected =>
      match renditions.findIdx? (fun r => r.id == selected.id) with
      | none => (none, e)
      | some new_index =>
        match e.last_selection with
        | some last =>
          if new_index ≠ last then
            if e.stability_counter + 1 < 3 then
              (renditions.get? last, { e with stability_counter := e.stability_counter + 1 })
            else
              (some selected,
               { e with stability_counter := 0, last_selection := some new_index })
          else
            (some selected,
             { e with stability_counter := 0, last_selection := some new_index })
        | none =>
          (some selected, { e with last_selection := some new_index })

/-! ## QoE scoring (`psm-player-core/src/analytics.rs`) -/

/-- The inputs of the QoE calculator: quality switches are
`(timestamp, bitrate)` pairs, bitrate samples `(duration_s, bps)` pairs. -/
structure QoeCalculator where
  initial_buffer_time : ℚ
  rebuffer_count : Nat
  rebuffer_duration : ℚ
  quality_switches : List (ℚ × Nat)
  bitrate_samples : List (ℚ × Nat)
deriving DecidableEq, Repr

/-- Embeds `QoeCalculator::new`. -/
def QoeCalculator.new : QoeCalculator :=
  { initial_buffer_time := 0
    rebuffer_count := 0
    rebuffer_duration := 0
    quality_switches := []
    bitrate_samples := [] }

/-- Embeds `QoeCalculator::record_initial_buffer`. -/
def QoeCalculator.record_initial_buffer (q : QoeCalculator) (d : ℚ) : QoeCalculator :=
  { q with initial_buffer_time := d }

/-- Embeds `QoeCalculator::record_rebuffer`. -/
def QoeCalculator.record_rebuffer (q : QoeCalculator) (d : ℚ) : QoeCalculator :=
  { q with
    rebuffer_count := q.rebuffer_count + 1
    rebuffer_duration := q.rebuffer_duration + d }

/-- Embeds `QoeCalculator::record_quality_switch`. -/
def QoeCalculator.record_quality_switch (q : QoeCalculator) (timestamp : ℚ)
    (bitrate : Nat) : QoeCalculator :=
  { q with quality_switches := q.quality_switches ++ [(timestamp, bitrate)] }

/-- Embeds `QoeCalculator::average_bitrate`: `0` for no samples or a zero
duration sum; otherwise the duration-weighted mean truncated to `u64`
(negative means saturate to `0`, as `as u64` does). -/
def QoeCalculator.average_bitrate (q : QoeCalculator) : Nat :=
  if q.bitrate_samples = [] then 0
  else
    let total : ℚ := (q.bitrate_samples.map (fun p => p.1)).sum
    if total = 0 then 0
    else
      let weighted : ℚ := (q.bitrate_samples.map (fun p => p.1 * (p.2 : ℚ))).sum
      (⌊weighted / total⌋).toNat

/-- Embeds `QoeCalculator::calculate_qoe`: start at 100, subtract the
startup, rebuffer, and switching penalties, add the average-bitrate bonus,
and clamp to `[0, 100]`. -/
def QoeCalculator.calculate_qoe (q : QoeCalculator) : ℚ :=
  let s0 : ℚ := 100
  let s1 := if 2 < q.initial_buffer_time
            then s0 - (q.initial_buffer_time - 2) * 5 else s0
  let s2 := s1 - (q.rebuffer_count : ℚ) * 10
  let s3 := s2 - q.rebuffer_duration * 5
  let s4 := s3 - (q.quality_switches.length : ℚ) * 2
  let avg := q.average_bitrate
  let s5 := if 5000000 < avg then s4 + 5
            else if 2000000 < avg then s4 + 2 else s4
  ratClamp s5 0 100

/-! ## Manifest extraction (`psm-player-core/src/manifest/{hls,dash}.rs`) -/

/-- The 360p rendition of the repository's own ABR test ladder. -/
def sampleLow : Rendition :=
  { id := "360p", bandwidth := 800000, resolution := some { width := 640, height := 360 } }

/-- The 720p rendition of the repository's own ABR test ladder. -/
def sampleMid : Rendition :=
  { id := "720p", bandwidth := 2800000, resolution := some { width := 1280, height := 720 } }

/-- The 1080p rendition of the repository's own ABR test ladder. -/
def sampleHigh : Rendition :=
  { id := "1080p", bandwidth := 5000000, resolution := some { width := 1920, height := 1080 } }

/-- A context with a 10 Mbps bandwidth estimate and no caps. -/
def ctxTenMbps : AbrContext :=
  { buffer_level := 20, screen_width := none, max_bitrate := 0
    network := { bandwidth_estimate := 10000000 } }

/-- A context with a zero bandwidth estimate and no caps. -/
def ctxZeroEstimate : AbrContext :=
  { buffer_level := 20, screen_width := none, max_bitrate := 0
    network := { bandwidth_estimate := 0 } }

/-- A context with a buffer level of two seconds (below BOLA's minimum). -/
def ctxLowBuffer : AbrContext :=
  { buffer_level := 2, screen_width := none, max_bitrate := 0
    network := { bandwidth_estimate := 0 } }

/-! ## C1: session state transitions -/

/-- The transition edges exactly as the specification enumerates them. -/
def spec_transition_edges : List (PlayerState × PlayerState) :=
  [(.idle, .loading),
   (.loading, .buffering), (.loading, .error),
   (.buffering, .playing), (.buffering, .paused), (.buffering, .error),
   (.playing, .paused), (.playing, .buffering), (.playing, .seeking),
   (.playing, .ended), (.playing, .error),
   (.paused, .playing), (.paused, .seeking), (.paused, .idle),
   (.seeking, .buffering), (.seeking, .playing), (.seeking, .error),
   (.ended, .idle), (.ended, .seeking),
   (.error, .idle), (.error, .loading)]

/-- The code's transition test agrees with the specification's edge list. -/
theorem can_transition_to_iff_edge (a b : PlayerState) :
    a.can_transition_to b = true ↔ (a, b) ∈ spec_transition_edges := by
  cases a <;> cases b <;> decide

/-- Claim C1: a requested state transition of the session succeeds exactly
when the edge is in the specification's directed graph; any other request
yields the `InvalidStateTransition` error and leaves the session (in
particular its current state) unchanged, while a permitted request writes
the new state and emits the `StateChange` event. -/
theorem session_state_transition (s : SessionState) (target : PlayerState) :
    s.set_state target =
      if (s.state, target) ∈ spec_transition_edges then
        (.ok (), { s with state := target },
         if s.analytics_enabled
         then [AnalyticsEvent.stateChange s.state target s.position]
         else [])
      else
        (.error (Err.invalidStateTransition s.state.toDisplay target.toDisplay), s, []) := by
  by_cases hmem : (s.state, target) ∈ spec_transition_edges
  · rw [SessionState.set_state, if_pos ((can_transition_to_iff_edge s.state target).mpr hmem),
      if_pos hmem]
  · rw [SessionState.set_state,
      if_neg (fun hc => hmem ((can_transition_to_iff_edge s.state target).mp hc)),
      if_neg hmem]

/-! ## C4: the throughput rule -/

/-- The result of `max_by_bandwidth` is `none` exactly on the empty list,
and a `some` result is a maximal-bandwidth element of the list. -/
theorem max_by_bandwidth_spec (l : List Rendition) :
    (max_by_bandwidth l = none ↔ l = []) ∧
    (∀ r, max_by_bandwidth l = some r →
      r ∈ l ∧ ∀ x ∈ l, x.bandwidth ≤ r.bandwidth) := by
  induction l with
  | nil =>
    constructor
    · simp [max_by_bandwidth]
    · intro r h
      simp [max_by_bandwidth] at h
  | cons x xs ih =>
    cases hx : max_by_bandwidth xs with
    | none =>
      have hxs : xs = [] := (ih.1).mp hx
      subst hxs
      constructor
      · simp [max_by_bandwidth]
      · intro r h
        simp [max_by_bandwidth] at h
        subst h
        simp
    | some m =>
      obtain ⟨hmem, hmax⟩ := ih.2 m hx
      have hunf : max_by_bandwidth (x :: xs) =
          if x.bandwidth ≤ m.bandwidth then some m else some x := by
        simp only [max_by_bandwidth, hx]
      constructor
      · rw [hunf]
        constructor
        · intro hc
          split at hc <;> simp at hc
        · intro hc
          simp at hc
      · intro r h
        rw [hunf] at h
        by_cases hbm : x.bandwidth ≤ m.bandwidth
        · rw [if_pos hbm] at h
          obtain rfl : m = r := by simpa using h
          refine ⟨List.mem_cons_of_mem x hmem, ?_⟩
          intro y hy
          rcases List.mem_cons.mp hy with rfl | hy
          · exact hbm
          · exact hmax y hy
        · rw [if_neg hbm] at h
          obtain rfl : x = r := by simpa using h
          refine ⟨List.mem_cons_self x xs, ?_⟩
          intro y hy
          rcases List.mem_cons.mp hy with rfl | hy
          · exact le_refl _
          · exact le_trans (hmax y hy) (le_of_not_le hbm)

/-- Counterexample to claim C4 as stated: with a zero bandwidth estimate
(so an empty filter) the throughput rule returns `none`, not the
lowest-bandwidth rendition `sampleLow` of the non-empty input. -/
theorem throughput_zero_estimate_returns_none :
    ThroughputAlgorithm.select_rendition [sampleLow] ctxZeroEstimate = none ∧
    (some sampleLow : Option Rendition) ≠ none := by
  exact ⟨rfl, by decide⟩

/-- Claim C4 (amended): the throughput rule keeps exactly the renditions
whose bandwidth is within `min(0.8 · estimate, max_bitrate)` (the cap
applying only when non-zero) and whose width fits the screen, and returns
a kept rendition of maximal bandwidth; but when no rendition passes the
filter — in particular whenever the bandwidth estimate is zero and every
bandwidth is positive — it returns `none` rather than the lowest-bandwidth
rendition. -/
theorem throughput_select_spec (renditions : List Rendition) (ctx : AbrContext) :
    (∀ r, r ∈ throughputEligible renditions ctx ↔
      r ∈ renditions ∧ r.bandwidth ≤ throughputCap ctx ∧ resolutionFits r ctx = true) ∧
    (ThroughputAlgorithm.select_rendition renditions ctx = none ↔
      throughputEligible renditions ctx = []) ∧
    (∀ r, ThroughputAlgorithm.select_rendition renditions ctx = some r →
      r ∈ throughputEligible renditions ctx ∧
      ∀ x ∈ throughputEligible renditions ctx, x.bandwidth ≤ r.bandwidth) := by
  refine ⟨?_, ?_, ?_⟩
  · intro r
    simp only [throughputEligible, List.mem_filter, decide_eq_true_eq]
    tauto
  · exact (max_by_bandwidth_spec _).1
  · intro r h
    exact (max_by_bandwidth_spec _).2 r h

/-! ## C6: the EWMA estimate update -/

/-- Counterexample to claim C6 as stated: from an estimate of 10 bps, a
sample of 9 bps moves the estimate to 9 (the `u64` truncation of 9.8), a
change of 1 which exceeds `0.2 · |9 − 10| = 0.2`; moreover the very first
sample seeds the estimate, also violating the bound. -/
theorem ewma_truncation_counterexample :
    (AbrEngineState.new.record_measurement 10 8).bandwidth_estimate = 10 ∧
    ((AbrEngineState.new.record_measurement 10 8).record_measurement 9 8).bandwidth_estimate = 9 ∧
    ¬ (|(9 : ℚ) - 10| ≤ 1 / 5 * |(9 : ℚ) - 10|) := by
  have hstep : ∀ (e : AbrEngineState) (sB sE : Nat), e.bandwidth_estimate = sE →
      (e.record_measurement sB 8).bandwidth_estimate =
        if sE = 0 then (⌊(8 * sB : ℚ) / 8⌋).toNat
        else (4 * sE + (⌊(8 * sB : ℚ) / 8⌋).toNat) / 5 := by
    intro e sB sE he
    simp only [AbrEngineState.record_measurement, BandwidthMeasurement.throughput_bps, he]
    norm_num
  have h1 : (AbrEngineState.new.record_measurement 10 8).bandwidth_estimate = 10 := by
    rw [hstep _ 10 0 rfl]
    norm_num
    decide
  refine ⟨h1, ?_, by norm_num⟩
  rw [hstep _ 9 10 h1]
  norm_num
  decide

/-- The arithmetic core of the EWMA bound: one truncated update step
moves the estimate by at most a fifth of the gap plus the rounding slack. -/
theorem ewma_step_abs (e s : Nat) :
    5 * |(((4 * e + s) / 5 : Nat) : ℤ) - (e : ℤ)| ≤ |(s : ℤ) - (e : ℤ)| + 4 := by
  rcases abs_cases ((((4 * e + s) / 5 : Nat) : ℤ) - (e : ℤ)) with ⟨h1, _⟩ | ⟨h1, _⟩ <;>
    rcases abs_cases ((s : ℤ) - (e : ℤ)) with ⟨h2, _⟩ | ⟨h2, _⟩ <;>
    rw [h1, h2] <;> omega

/-- Claim C6 (amended): `record_measurement` seeds a zero estimate with
the sample; otherwise the new estimate is the `u64` truncation of
`0.8·e + 0.2·sample`, i.e. `(4·e + sample) / 5` rounded down, so the
absolute change obeys `5·|Δ| ≤ |sample − e| + 4` (the extra 4 is the
truncation slack; the claimed bound `0.2·|sample − e|` itself can be
exceeded by the truncation, and fails outright on the seeding step). -/
theorem record_measurement_estimate (e : AbrEngineState) (bytes : Nat) (duration : ℚ) :
    ((e.record_measurement bytes duration).bandwidth_estimate =
      if e.bandwidth_estimate = 0
      then (BandwidthMeasurement.mk bytes duration).throughput_bps
      else (4 * e.bandwidth_estimate +
        (BandwidthMeasurement.mk bytes duration).throughput_bps) / 5) ∧
    (e.bandwidth_estimate ≠ 0 →
      5 * |((e.record_measurement bytes duration).bandwidth_estimate : ℤ) -
            e.bandwidth_estimate| ≤
        |((BandwidthMeasurement.mk bytes duration).throughput_bps : ℤ) -
            e.bandwidth_estimate| + 4) := by
  constructor
  · rfl
  · intro hne
    have hupd : (e.record_measurement bytes duration).bandwidth_estimate =
        (4 * e.bandwidth_estimate +
          (BandwidthMeasurement.mk bytes duration).throughput_bps) / 5 := by
      simp only [AbrEngineState.record_measurement, if_neg hne]
    rw [hupd]
    exact ewma_step_abs e.bandwidth_estimate _

/-! ## C7: QoE scoring -/

/-- The clamp of a rational to `[lo, hi]` lands in `[lo, hi]`. -/
theorem ratClamp_range (x lo hi : ℚ) (h : lo ≤ hi) :
    lo ≤ ratClamp x lo hi ∧ ratClamp x lo hi ≤ hi := by
  unfold ratClamp
  split_ifs with h1 h2 <;> constructor <;> linarith

/-- The QoE score formula exactly as claim C7 words it: 100, minus
`5·(initial_buffer_time − 2)` when the startup exceeds two seconds, minus
10 per rebuffer, minus 5 per second of rebuffering, minus 2 per quality
switch, plus the average-bitrate bonus, clamped to `[0, 100]`. -/
def qoeClaimFormula (q : QoeCalculator) : ℚ :=
  ratClamp
    ((if 2 < q.initial_buffer_time then 100 - 5 * (q.initial_buffer_time - 2) else 100)
      - 10 * (q.rebuffer_count : ℚ) - 5 * q.rebuffer_duration
      - 2 * (q.quality_switches.length : ℚ)
      + (if 5000000 < q.average_bitrate then (5 : ℚ)
         else if 2000000 < q.average_bitrate then 2 else 0))
    0 100

/-- The scenario S5 of the specification: startup 5 s, rebuffers of 1 s
and 2 s, three quality switches, no bitrate samples. -/
def qoeScenarioS5 : QoeCalculator :=
  ((((QoeCalculator.new.record_initial_buffer 5).record_rebuffer 1).record_rebuffer
      2).record_quality_switch 10 800000).record_quality_switch 20 2800000
    |>.record_quality_switch 30 800000

/-- Claim C7: the QoE score is a pure function of the recorded inputs
(it is a function of the `QoeCalculator` value by construction), always
lies in `[0, 100]`, equals the claim's formula, and scores the S5 scenario
(startup 5 s, rebuffers 1 s and 2 s, three switches, no samples) at 44. -/
theorem qoe_score_spec :
    (∀ q : QoeCalculator,
      0 ≤ q.calculate_qoe ∧ q.calculate_qoe ≤ 100 ∧
      q.calculate_qoe = qoeClaimFormula q) ∧
    qoeScenarioS5.calculate_qoe = 44 := by
  constructor
  · intro q
    refine ⟨(ratClamp_range _ 0 100 (by norm_num)).1,
      (ratClamp_range _ 0 100 (by norm_num)).2, ?_⟩
    show ratClamp _ 0 100 = ratClamp _ 0 100
    split_ifs <;> (congr 1; ring)
  · norm_num [qoeScenarioS5, QoeCalculator.new, QoeCalculator.record_initial_buffer,
      QoeCalculator.record_rebuffer, QoeCalculator.record_quality_switch,
      QoeCalculator.calculate_qoe, QoeCalculator.average_bitrate, ratClamp]

/-! ## C8: manifests without variants -/

/-- The engine state after a first selection over the three-rung ladder
with a 10 Mbps estimate: the throughput rule picks the 1080p rung, so the
stored `last_selection` index is 2. -/
def engineAfterFirstCall : Option Rendition × AbrEngineState :=
  AbrEngineState.select_rendition ThroughputAlgorithm.select_rendition
    AbrEngineState.new [sampleLow, sampleMid, sampleHigh] ctxTenMbps

/-- Counterexample to claim C3 as stated: after a first call over the
three-rung ladder stores `last_selection = 2`, a second call over the
ONE-element slice `[sampleLow]` hits the oscillation damper, which returns
`renditions.get(2) = none` — `none` for a non-empty input slice, so the
returned value is not one of the input's renditions. -/
theorem engine_stale_index_returns_none :
    engineAfterFirstCall.1 = some sampleHigh ∧
    engineAfterFirstCall.2.last_selection = some 2 ∧
    (AbrEngineState.select_rendition ThroughputAlgorithm.select_rendition
      engineAfterFirstCall.2 [sampleLow] ctxTenMbps).1 = none ∧
    ([sampleLow] : List Rendition) ≠ [] := by
  refine ⟨?_, ?_, ?_, by decide⟩ <;> decide

/-- Claim C3 (amended): `select_rendition` on an empty slice returns
`none`; on a non-empty slice, whenever the inner algorithm only ever
returns renditions of the input slice (which the borrow lifetime of the
Rust trait method enforces), the engine's result is either `none` — which
does occur when the stored `last_selection` index refers to a longer
previous slice — or one of the input slice's renditions. -/
theorem engine_select_membership
    (algo : List Rendition → AbrContext → Option Rendition)
    (e : AbrEngineState) (renditions : List Rendition) (ctx : AbrContext)
    (halgo : ∀ r, algo renditions ctx = some r → r ∈ renditions) :
    (renditions = [] →
      (AbrEngineState.select_rendition algo e renditions ctx).1 = none) ∧
    (∀ r, (AbrEngineState.select_rendition algo e renditions ctx).1 = some r →
      r ∈ renditions) := by
  constructor
  · intro h
    simp [AbrEngineState.select_rendition, h]
  · intro r hr
    unfold AbrEngineState.select_rendition at hr
    split at hr
    · simp at hr
    · split at hr
      · simp at hr
      · rename_i selected hsel
        split at hr
        · simp at hr
        · rename_i new_index hidx
          split at hr
          · rename_i last hlast
            split at hr
            · split at hr
              · simp at hr
                exact List.getElem?_mem hr
              · simp at hr
                exact hr ▸ halgo selected hsel
            · simp at hr
              exact hr ▸ halgo selected hsel
          · simp at hr
            exact hr ▸ halgo selected hsel

/-- A trivial inner algorithm that returns the head of the slice; used to
instantiate the engine membership theorem at a concrete input. -/
def headAlgo : List Rendition → AbrContext → Option Rendition :=
  fun renditions _ => renditions.head?

/-- Witness for the engine membership theorem at a concrete input: the
head-of-slice algorithm over the one-rung ladder. -/
theorem engine_select_membership_witness :
    (([sampleLow] : List Rendition) = [] →
      (AbrEngineState.select_rendition headAlgo AbrEngineState.new
        [sampleLow] ctxTenMbps).1 = none) ∧
    (∀ r, (AbrEngineState.select_rendition headAlgo AbrEngineState.new
        [sampleLow] ctxTenMbps).1 = some r → r ∈ [sampleLow]) :=
  engine_select_membership headAlgo AbrEngineState.new [sampleLow] ctxTenMbps
    (fun r h => by
      simp [headAlgo] at h
      subst h
      simp)

/-! ## C5: the BOLA rule -/

/-- A rendition's BOLA score is negative infinity exactly when its
bandwidth is zero. -/
theorem bolaScore_eq_bot_iff (buffer : ℚ) (r : Rendition) :
    bolaScore buffer r = ⊥ ↔ r.bandwidth = 0 := by
  by_cases h : r.bandwidth = 0
  · simp [bolaScore, h]
  · simp [bolaScore, h, EReal.coe_ne_bot]

/-- Invariant of the BOLA best-score loop, threaded with its
`best_score` accumulator (equal to the score of `best`, negative
infinity for `none`): a `none` result means the accumulator was empty
and every eligible element scored negative infinity; a `some` result is
an eligible, finite-scoring list element (or the incoming accumulator)
whose score dominates every eligible element and the accumulator. -/
theorem bolaLoop_spec (buffer : ℚ) (ctx : AbrContext) (l : List Rendition) :
    ∀ (best : Option Rendition) (bs : EReal),
    bs = (match best with
          | none => (⊥ : EReal)
          | some b => bolaScore buffer b) →
    ((bolaLoop buffer ctx l best bs = none ↔
      (best = none ∧
        ∀ x ∈ l, bolaEligible ctx x = true → bolaScore buffer x = ⊥)) ∧
     (∀ r, bolaLoop buffer ctx l best bs = some r →
       ((r ∈ l ∧ bolaEligible ctx r = true ∧ (⊥ : EReal) < bolaScore buffer r) ∨
         best = some r) ∧
       (∀ x ∈ l, bolaEligible ctx x = true →
         bolaScore buffer x ≤ bolaScore buffer r) ∧
       bs ≤ bolaScore buffer r)) := by
  induction l with
  | nil =>
    intro best bs hlink
    constructor
    · simp [bolaLoop]
    · intro r hr
      simp only [bolaLoop] at hr
      subst hr
      refine ⟨Or.inr rfl, by simp, le_of_eq (by simpa using hlink)⟩
  | cons y ys ih =>
    intro best bs hlink
    by_cases hel : bolaEligible ctx y
    · by_cases hlt : bs < bolaScore buffer y
      · have hstep : bolaLoop buffer ctx (y :: ys) best bs =
            bolaLoop buffer ctx ys (some y) (bolaScore buffer y) := by
          simp [bolaLoop, hel, hlt]
        have hIH := ih (some y) (bolaScore buffer y) rfl
        constructor
        · rw [hstep]
          constructor
          · intro hc
            exact absurd (hIH.1.mp hc).1 (by simp)
          · rintro ⟨hbnone, hall⟩
            subst hbnone
            simp only [] at hlink
            rw [hlink, hall y (List.mem_cons_self y ys) hel] at hlt
            exact absurd hlt (lt_irrefl _)
        · intro r hr
          rw [hstep] at hr
          obtain ⟨hfirst, hmax, hacc⟩ := hIH.2 r hr
          refine ⟨?_, ?_, ?_⟩
          · rcases hfirst with ⟨hm, he, hbot⟩ | hb
            · exact Or.inl ⟨List.mem_cons_of_mem y hm, he, hbot⟩
            · obtain rfl : y = r := by simpa using hb
              exact Or.inl
                ⟨List.mem_cons_self y ys, hel, lt_of_le_of_lt bot_le hlt⟩
          · intro x hx hxe
            rcases List.mem_cons.mp hx with rfl | hx
            · exact hacc
            · exact hmax x hx hxe
          · exact le_trans (le_of_lt hlt) hacc
      · have hstep : bolaLoop buffer ctx (y :: ys) best bs =
            bolaLoop buffer ctx ys best bs := by
          simp [bolaLoop, hel, hlt]
        have hIH := ih best bs hlink
        constructor
        · rw [hstep]
          constructor
          · intro hc
            obtain ⟨hb, hall⟩ := hIH.1.mp hc
            refine ⟨hb, ?_⟩
            intro x hx hxe
            rcases List.mem_cons.mp hx with rfl | hx
            · subst hb
              simp only [] at hlink
              exact le_bot_iff.mp (hlink ▸ not_lt.mp hlt)
            · exact hall x hx hxe
          · rintro ⟨hb, hall⟩
            exact hIH.1.mpr
              ⟨hb, fun x hx hxe => hall x (List.mem_cons_of_mem y hx) hxe⟩
        · intro r hr
          rw [hstep] at hr
          obtain ⟨hfirst, hmax, hacc⟩ := hIH.2 r hr
          refine ⟨?_, ?_, hacc⟩
          · rcases hfirst with ⟨hm, he, hbot⟩ | hb
            · exact Or.inl ⟨List.mem_cons_of_mem y hm, he, hbot⟩
            · exact Or.inr hb
          · intro x hx hxe
            rcases List.mem_cons.mp hx with rfl | hx
            · exact le_trans (not_lt.mp hlt) hacc
            · exact hmax x hx hxe
    · have hstep : bolaLoop buffer ctx (y :: ys) best bs =
          bolaLoop buffer ctx ys best bs := by
        simp [bolaLoop, hel]
      have hIH := ih best bs hlink
      constructor
      · rw [hstep]
        constructor
        · intro hc
          obtain ⟨hb, hall⟩ := hIH.1.mp hc
          refine ⟨hb, ?_⟩
          intro x hx hxe
          rcases List.mem_cons.mp hx with rfl | hx
          · exact absurd hxe (by simpa using hel)
          · exact hall x hx hxe
        · rintro ⟨hb, hall⟩
          exact hIH.1.mpr
            ⟨hb, fun x hx hxe => hall x (List.mem_cons_of_mem y hx) hxe⟩
      · intro r hr
        rw [hstep] at hr
        obtain ⟨hfirst, hmax, hacc⟩ := hIH.2 r hr
        refine ⟨?_, ?_, hacc⟩
        · rcases hfirst with ⟨hm, he, hbot⟩ | hb
          · exact Or.inl ⟨List.mem_cons_of_mem y hm, he, hbot⟩
          · exact Or.inr hb
        · intro x hx hxe
          rcases List.mem_cons.mp hx with rfl | hx
          · exact absurd hxe (by simpa using hel)
          · exact hmax x hx hxe

/-- Counterexample to claim C5 as stated: with a buffer below
`buffer_min`, BOLA returns the FIRST rendition of the list — here the
720p rung at 2.8 Mbps — not the lowest-bandwidth rendition (the 360p rung
at 0.8 Mbps, which sits second in this list). -/
theorem bola_low_buffer_returns_first :
    BolaAlgorithm.select_rendition [sampleMid, sampleLow] ctxLowBuffer = some sampleMid ∧
    sampleLow.bandwidth < sampleMid.bandwidth := by
  constructor
  · unfold BolaAlgorithm.select_rendition
    rw [if_neg (by decide : ¬([sampleMid, sampleLow] : List Rendition) = []),
      if_pos (by norm_num [ctxLowBuffer, bola_buffer_min] :
        ctxLowBuffer.buffer_level < bola_buffer_min)]
    rfl
  · decide

/-- Claim C5 (amended): for a non-empty rendition list, a buffer level
below `buffer_min = 5` s makes BOLA return the first rendition of the
list (which need not be the lowest-bandwidth one); otherwise BOLA returns
`none` exactly when every rendition either exceeds a non-zero
`max_bitrate` cap or has bandwidth zero (such a rendition scores
`ln(0) = -inf`, which never beats the `NEG_INFINITY` starting score),
and any rendition it returns is an eligible positive-bandwidth member of
the list whose score
`(0.93·ln(bandwidth) − buffer) / (bandwidth/1e6 + 5)` is maximal among
the eligible renditions. -/
theorem bola_select_spec (renditions : List Rendition) (ctx : AbrContext)
    (h : renditions ≠ []) :
    (ctx.buffer_level < bola_buffer_min →
      BolaAlgorithm.select_rendition renditions ctx = renditions.head?) ∧
    (¬ ctx.buffer_level < bola_buffer_min →
      (BolaAlgorithm.select_rendition renditions ctx = none ↔
        ∀ x ∈ renditions, bolaEligible ctx x = false ∨ x.bandwidth = 0) ∧
      (∀ r, BolaAlgorithm.select_rendition renditions ctx = some r →
        r ∈ renditions ∧ bolaEligible ctx r = true ∧ r.bandwidth ≠ 0 ∧
        ∀ x ∈ renditions, bolaEligible ctx x = true →
          bolaScore ctx.buffer_level x ≤ bolaScore ctx.buffer_level r)) := by
  constructor
  · intro hb
    unfold BolaAlgorithm.select_rendition
    rw [if_neg h, if_pos hb]
  · intro hb
    have hsel : BolaAlgorithm.select_rendition renditions ctx =
        bolaLoop ctx.buffer_level ctx renditions none ⊥ := by
      unfold BolaAlgorithm.select_rendition
      rw [if_neg h, if_neg hb]
    have hspec := bolaLoop_spec ctx.buffer_level ctx renditions none ⊥ rfl
    constructor
    · rw [hsel, hspec.1]
      simp only [true_and]
      constructor
      · intro hall x hx
        by_cases he : bolaEligible ctx x
        · exact Or.inr ((bolaScore_eq_bot_iff _ _).mp (hall x hx he))
        · exact Or.inl (Bool.eq_false_iff.mpr he)
      · intro hall x hx hxe
        rcases hall x hx with he | hbw
        · rw [hxe] at he
          exact absurd he (by simp)
        · exact (bolaScore_eq_bot_iff _ _).mpr hbw
    · intro r hr
      rw [hsel] at hr
      obtain ⟨hfirst, hmax, _⟩ := hspec.2 r hr
      rcases hfirst with ⟨hmem, helig, hbot⟩ | hbest
      · refine ⟨hmem, helig, ?_, fun x hx he => hmax x hx he⟩
        intro hbw
        rw [(bolaScore_eq_bot_iff _ _).mpr hbw] at hbot
        exact absurd hbot (lt_irrefl _)
      · simp at hbest

/-- Witness for the BOLA theorem at a concrete input: the two-rung list
with a two-second buffer. -/
theorem bola_select_spec_witness :
    (([sampleMid, sampleLow] : List Rendition) ≠ []) ∧
    ((ctxLowBuffer.buffer_level < bola_buffer_min →
      BolaAlgorithm.select_rendition [sampleMid, sampleLow] ctxLowBuffer =
        ([sampleMid, sampleLow] : List Rendition).head?) ∧
    (¬ ctxLowBuffer.buffer_level < bola_buffer_min →
      (BolaAlgorithm.select_rendition [sampleMid, sampleLow] ctxLowBuffer = none ↔
        ∀ x ∈ ([sampleMid, sampleLow] : List Rendition),
          bolaEligible ctxLowBuffer x = false ∨ x.bandwidth = 0) ∧
      (∀ r, BolaAlgorithm.select_rendition [sampleMid, sampleLow] ctxLowBuffer = some r →
        r ∈ ([sampleMid, sampleLow] : List Rendition) ∧
        bolaEligible ctxLowBuffer r = true ∧ r.bandwidth ≠ 0 ∧
        ∀ x ∈ ([sampleMid, sampleLow] : List Rendition),
          bolaEligible ctxLowBuffer x = true →
          bolaScore ctxLowBuffer.buffer_level x ≤
            bolaScore ctxLowBuffer.buffer_level r))) :=
  ⟨by decide, bola_select_spec [sampleMid, sampleLow] ctxLowBuffer (by decide)⟩

/-! ## C2: buffer manager counters -/

/-- Unfolding lemma for `segSizes` over a cons. -/
theorem segSizes_cons (x : BufferedSegment) (l : List BufferedSegment) :
    segSizes (x :: l) = x.size + segSizes l := by
  simp [segSizes]

/-- Unfolding lemma for `segDurations` over a cons. -/
theorem segDurations_cons (x : BufferedSegment) (l : List BufferedSegment) :
    segDurations (x :: l) = x.duration + segDurations l := by
  simp [segDurations]

/-- Erasing the found entry removes exactly its byte length from the sum. -/
theorem segSizes_eraseP {l : List BufferedSegment} {seg : BufferedSegment}
    {p : BufferedSegment → Bool} (h : l.find? p = some seg) :
    segSizes (l.eraseP p) + seg.size = segSizes l := by
  induction l with
  | nil => simp at h
  | cons x xs ih =>
    by_cases hp : p x
    · rw [List.find?_cons_of_pos _ hp] at h
      obtain rfl : x = seg := by simpa using h
      rw [List.eraseP_cons_of_pos hp, segSizes_cons]
      omega
    · rw [List.find?_cons_of_neg _ hp] at h
      rw [List.eraseP_cons_of_neg hp, segSizes_cons, segSizes_cons]
      have := ih h
      omega

/-- Erasing the found entry removes exactly its duration from the sum. -/
theorem segDurations_eraseP {l : List BufferedSegment} {seg : BufferedSegment}
    {p : BufferedSegment → Bool} (h : l.find? p = some seg) :
    segDurations (l.eraseP p) = segDurations l - seg.duration := by
  induction l with
  | nil => simp at h
  | cons x xs ih =>
    by_cases hp : p x
    · rw [List.find?_cons_of_pos _ hp] at h
      obtain rfl : x = seg := by simpa using h
      rw [List.eraseP_cons_of_pos hp, segDurations_cons]
      ring
    · rw [List.find?_cons_of_neg _ hp] at h
      rw [List.eraseP_cons_of_neg hp, segDurations_cons, segDurations_cons, ih h]
      ring

/-- `removeSeq` preserves the accounting invariant. -/
theorem removeSeq_good {b : BufferManager} (seq : Nat) (h : goodBuffer b) :
    goodBuffer (b.removeSeq seq) := by
  obtain ⟨hm, hd, hs⟩ := h
  unfold BufferManager.removeSeq
  cases hf : b.segments.find? (fun s => s.number == seq) with
  | none => exact ⟨hm, hd, hs⟩
  | some seg =>
    have hsz := segSizes_eraseP hf
    have hdu := segDurations_eraseP hf
    refine ⟨?_, ?_, ?_⟩
    · show b.memory_used - seg.size = segSizes (b.segments.eraseP (fun s => s.number == seq))
      omega
    · show b.buffered_duration - seg.duration =
        segDurations (b.segments.eraseP (fun s => s.number == seq))
      rw [hd, hdu]
    · exact List.Pairwise.sublist (List.eraseP_sublist _) hs

/-- `removeSeq` only ever drops entries. -/
theorem removeSeq_sublist (b : BufferManager) (seq : Nat) :
    (b.removeSeq seq).segments.Sublist b.segments := by
  unfold BufferManager.removeSeq
  cases hf : b.segments.find? (fun s => s.number == seq) with
  | none => exact List.Sublist.refl _
  | some seg => exact List.eraseP_sublist _

/-- Folding `removeSeq` preserves the accounting invariant. -/
theorem foldl_removeSeq_good (seqs : List Nat) :
    ∀ b : BufferManager, goodBuffer b →
      goodBuffer (seqs.foldl BufferManager.removeSeq b) := by
  induction seqs with
  | nil => intro b h; exact h
  | cons s rest ih => intro b h; exact ih _ (removeSeq_good s h)

/-- Folding `removeSeq` only ever drops entries. -/
theorem foldl_removeSeq_sublist (seqs : List Nat) :
    ∀ b : BufferManager,
      (seqs.foldl BufferManager.removeSeq b).segments.Sublist b.segments := by
  induction seqs with
  | nil => intro b; exact List.Sublist.refl _
  | cons s rest ih =>
    intro b
    exact List.Sublist.trans (ih _) (removeSeq_sublist b s)

/-- Members of an insertion result are the new segment or old members. -/
theorem mem_insertSegment {y seg : BufferedSegment} :
    ∀ {l : List BufferedSegment}, y ∈ insertSegment seg l → y = seg ∨ y ∈ l := by
  intro l
  induction l with
  | nil => intro h; exact Or.inl (by simpa [insertSegment] using h)
  | cons x xs ih =>
    intro h
    unfold insertSegment at h
    split at h
    · rcases List.mem_cons.mp h with rfl | h
      · exact Or.inl rfl
      · exact Or.inr h
    · split at h
      · rcases List.mem_cons.mp h with rfl | h
        · exact Or.inl rfl
        · exact Or.inr (List.mem_cons_of_mem x h)
      · rcases List.mem_cons.mp h with rfl | h
        · exact Or.inr (List.mem_cons_self _ _)
        · rcases ih h with h | h
          · exact Or.inl h
          · exact Or.inr (List.mem_cons_of_mem x h)

/-- Inserting a fresh sequence number adds exactly its byte length. -/
theorem segSizes_insertSegment (seg : BufferedSegment) :
    ∀ l : List BufferedSegment, (∀ s ∈ l, s.number ≠ seg.number) →
      segSizes (insertSegment seg l) = seg.size + segSizes l := by
  intro l
  induction l with
  | nil => intro _; simp [insertSegment, segSizes]
  | cons x xs ih =>
    intro hfresh
    unfold insertSegment
    split
    · rw [segSizes_cons]
    · split
      · exact absurd (by assumption : seg.number = x.number).symm
          (hfresh x (List.mem_cons_self x xs))
      · rw [segSizes_cons, segSizes_cons,
          ih (fun s hs => hfresh s (List.mem_cons_of_mem x hs))]
        omega

/-- Inserting a fresh sequence number adds exactly its duration. -/
theorem segDurations_insertSegment (seg : BufferedSegment) :
    ∀ l : List BufferedSegment, (∀ s ∈ l, s.number ≠ seg.number) →
      segDurations (insertSegment seg l) = seg.duration + segDurations l := by
  intro l
  induction l with
  | nil => intro _; simp [insertSegment, segDurations]
  | cons x xs ih =>
    intro hfresh
    unfold insertSegment
    split
    · rw [segDurations_cons]
    · split
      · exact absurd (by assumption : seg.number = x.number).symm
          (hfresh x (List.mem_cons_self x xs))
      · rw [segDurations_cons, segDurations_cons,
          ih (fun s hs => hfresh s (List.mem_cons_of_mem x hs))]
        ring

/-- Inserting a fresh sequence number keeps the key order. -/
theorem sortedKeys_insertSegment (seg : BufferedSegment) :
    ∀ l : List BufferedSegment, (∀ s ∈ l, s.number ≠ seg.number) →
      sortedKeys l → sortedKeys (insertSegment seg l) := by
  intro l
  induction l with
  | nil => intro _ _; simp [insertSegment, sortedKeys]
  | cons x xs ih =>
    intro hfresh hs
    simp only [sortedKeys, List.pairwise_cons] at hs
    obtain ⟨hx, hxs⟩ := hs
    unfold insertSegment
    split
    · rename_i hlt
      simp only [sortedKeys, List.pairwise_cons]
      refine ⟨?_, ?_⟩
      · intro y hy
        rcases List.mem_cons.mp hy with rfl | hy
        · exact hlt
        · exact lt_trans hlt (hx y hy)
      · exact ⟨hx, hxs⟩
    · split
      · exact absurd (by assumption : seg.number = x.number).symm
          (hfresh x (List.mem_cons_self x xs))
      · rename_i hnlt hne
        simp only [sortedKeys, List.pairwise_cons]
        refine ⟨?_, ?_⟩
        · intro y hy
          rcases mem_insertSegment hy with rfl | hy
          · omega
          · exact hx y hy
        · exact ih (fun s hs => hfresh s (List.mem_cons_of_mem x hs)) hxs

/-- `add_segment` with a fresh sequence number preserves the invariant. -/
theorem add_segment_good (b : BufferManager) (n : Nat) (dur : ℚ) (size : Nat)
    (h : goodBuffer b) (hfresh : ∀ s ∈ b.segments, s.number ≠ n) :
    goodBuffer (b.add_segment n dur size) := by
  unfold BufferManager.add_segment
  set b1 := if b.config.max_memory_bytes < b.memory_used + size
            then b.evict_segments size else b with hb1def
  have hb1 : goodBuffer b1 ∧ b1.segments.Sublist b.segments := by
    rw [hb1def]
    split
    · exact ⟨foldl_removeSeq_good _ _ h, foldl_removeSeq_sublist _ _⟩
    · exact ⟨h, List.Sublist.refl _⟩
  obtain ⟨⟨hm, hd, hs⟩, hsub⟩ := hb1
  have hfresh1 : ∀ s ∈ b1.segments, s.number ≠ n :=
    fun s hsm => hfresh s (hsub.mem hsm)
  refine ⟨?_, ?_, ?_⟩
  · show b1.memory_used + size = segSizes (insertSegment _ b1.segments)
    rw [segSizes_insertSegment _ _ hfresh1]
    show b1.memory_used + size = size + segSizes b1.segments
    rw [hm]
    omega
  · show b1.buffered_duration + dur = segDurations (insertSegment _ b1.segments)
    rw [segDurations_insertSegment _ _ hfresh1]
    show b1.buffered_duration + dur = dur + segDurations b1.segments
    rw [hd]
    ring
  · exact sortedKeys_insertSegment _ _ hfresh1 hs

/-- `consume_segment` preserves the invariant: the marking map keeps every
entry's number, byte length and duration. -/
theorem consume_segment_good (b : BufferManager) (seq : Nat)
    (h : goodBuffer b) : goodBuffer (b.consume_segment seq) := by
  obtain ⟨hm, hd, hs⟩ := h
  refine ⟨?_, ?_, ?_⟩
  · show b.memory_used = segSizes (b.segments.map _)
    rw [hm, segSizes, segSizes, List.map_map]
    have hfun : ∀ f : BufferedSegment → BufferedSegment,
        (∀ s, (f s).size = s.size) →
        ((fun s : BufferedSegment => s.size) ∘ f) =
          (fun s : BufferedSegment => s.size) :=
      fun f hf => funext (fun s => hf s)
    rw [hfun _ (fun s => by by_cases hn : s.number = seq <;> simp [hn])]
  · show b.buffered_duration = segDurations (b.segments.map _)
    rw [hd, segDurations, segDurations, List.map_map]
    have hfun : ∀ f : BufferedSegment → BufferedSegment,
        (∀ s, (f s).duration = s.duration) →
        ((fun s : BufferedSegment => s.duration) ∘ f) =
          (fun s : BufferedSegment => s.duration) :=
      fun f hf => funext (fun s => hf s)
    rw [hfun _ (fun s => by by_cases hn : s.number = seq <;> simp [hn])]
  · show sortedKeys (b.segments.map _)
    simp only [sortedKeys, List.pairwise_map]
    refine hs.imp ?_
    intro a c hac
    by_cases ha : a.number = seq <;> by_cases hc : c.number = seq <;>
      simp [ha, hc] <;> omega

/-- `update_position` preserves the invariant. -/
theorem update_position_good (b : BufferManager) (pos : ℚ)
    (h : goodBuffer b) : goodBuffer (b.update_position pos) := by
  exact foldl_removeSeq_good _ _ ⟨h.1, h.2.1, h.2.2⟩

/-- Every operation of a fresh run preserves the invariant. -/
theorem runOps_good (ops : List BufferOp) :
    ∀ b : BufferManager, goodBuffer b → b.freshRun ops = true →
      goodBuffer (b.runOps ops) := by
  induction ops with
  | nil => intro b h _; exact h
  | cons op rest ih =>
    intro b h hfr
    cases op with
    | add n dur size =>
      rw [BufferManager.freshRun, Bool.and_eq_true] at hfr
      refine ih _ (add_segment_good b n dur size h ?_) hfr.2
      intro s hsm
      have := List.all_eq_true.mp hfr.1 s hsm
      simpa using this
    | consume seq =>
      have hstep : b.freshRun (BufferOp.consume seq :: rest) =
          (true && (b.applyOp (BufferOp.consume seq)).freshRun rest) := rfl
      rw [hstep, Bool.true_and] at hfr
      exact ih _ (consume_segment_good b seq h) hfr
    | updatePos pos =>
      have hstep : b.freshRun (BufferOp.updatePos pos :: rest) =
          (true && (b.applyOp (BufferOp.updatePos pos)).freshRun rest) := rfl
      rw [hstep, Bool.true_and] at hfr
      exact ih _ (update_position_good b pos h) hfr

/-- Counterexample to claim C2 as stated: inserting three unconsumed
8-byte segments into a 10-byte buffer finds no eviction candidate and
still inserts (best effort), driving `memory_used` to 24, above
`max_memory_bytes + max_single_segment_bytes = 10 + 8 = 18`; and marking
a segment consumed leaves `buffered_duration` at 4 although the sum of
unconsumed durations is 0. -/
theorem buffer_counters_counterexample :
    ((BufferManager.new { max_memory_bytes := 10 }).runOps
        [.add 1 4 8, .add 2 4 8, .add 3 4 8]).memory_used = 24 ∧
    ¬ (24 ≤ 10 + 8) ∧
    ((BufferManager.new {}).runOps [.add 1 4 8, .consume 1]).buffered_duration = 4 ∧
    segUnconsumedDurations
      (((BufferManager.new {}).runOps [.add 1 4 8, .consume 1]).segments) = 0 ∧
    (4 : ℚ) ≠ 0 := by
  refine ⟨?_, by omega, ?_, ?_, by norm_num⟩ <;>
    norm_num [BufferManager.runOps, BufferManager.applyOp, BufferManager.add_segment,
      BufferManager.consume_segment, BufferManager.new, BufferManager.evict_segments,
      collectEvict, insertSegment, BufferManager.removeSeq, List.foldl,
      segUnconsumedDurations]

/-- Claim C2 (amended): for every operation sequence in which each `add`
uses a sequence number not currently buffered, both counters are exact
accounting sums over the buffered segments: `memory_used` equals the sum
of the buffered byte lengths and `buffered_duration` equals the sum of
ALL buffered durations, consumed segments included (consuming does not
reduce the counter, and the memory counter is bounded by no cap when
eviction finds no candidates). -/
theorem buffer_counters_spec (cfg : BufferConfig) (ops : List BufferOp)
    (h : (BufferManager.new cfg).freshRun ops = true) :
    ((BufferManager.new cfg).runOps ops).memory_used =
      segSizes ((BufferManager.new cfg).runOps ops).segments ∧
    ((BufferManager.new cfg).runOps ops).buffered_duration =
      segDurations ((BufferManager.new cfg).runOps ops).segments := by
  have hinit : goodBuffer (BufferManager.new cfg) := by
    refine ⟨rfl, rfl, ?_⟩
    simp [sortedKeys, BufferManager.new]
  have := runOps_good ops (BufferManager.new cfg) hinit h
  exact ⟨this.1, this.2.1⟩

/-- Witness for the buffer accounting theorem at a concrete input. -/
theorem buffer_counters_spec_witness :
    ((BufferManager.new {}).freshRun [.add 1 4 8, .consume 1, .updatePos 2] = true) ∧
    (((BufferManager.new {}).runOps [.add 1 4 8, .consume 1, .updatePos 2]).memory_used =
      segSizes (((BufferManager.new {}).runOps [.add 1 4 8, .consume 1, .updatePos 2]).segments) ∧
    ((BufferManager.new {}).runOps [.add 1 4 8, .consume 1, .updatePos 2]).buffered_duration =
      segDurations (((BufferManager.new {}).runOps [.add 1 4 8, .consume 1, .updatePos 2]).segments)) :=
  ⟨by
    norm_num [BufferManager.freshRun, BufferManager.applyOp, BufferManager.add_segment,
      BufferManager.consume_segment, BufferManager.update_position,
      BufferManager.cleanup_consumed, BufferManager.new, BufferManager.evict_segments,
      collectEvict, insertSegment, BufferManager.removeSeq, List.foldl],
   buffer_counters_spec {} [.add 1 4 8, .consume 1, .updatePos 2] (by
    norm_num [BufferManager.freshRun, BufferManager.applyOp, BufferManager.add_segment,
      BufferManager.consume_segment, BufferManager.update_position,
      BufferManager.cleanup_consumed, BufferManager.new, BufferManager.evict_segments,
      collectEvict, insertSegment, BufferManager.removeSeq, List.foldl])⟩

/-! ## C9 and C10: session seek -/

/-- The transition into `Seeking` is permitted exactly from `Playing`,
`Paused` or `Ended`. -/
theorem can_seek_iff (st : PlayerState) :
    st.can_transition_to PlayerState.seeking = true ↔
      (st = PlayerState.playing ∨ st = PlayerState.paused ∨ st = PlayerState.ended) := by
  cases st <;> simp [PlayerState.can_transition_to]

/-- A session freshly in `Idle` with a known ten-second duration. -/
def seekIdleSession : SessionState :=
  { state := PlayerState.idle
    position := 0
    duration := some 10
    buffer := BufferManager.new {}
    analytics_enabled := true }

/-- A playing session with a known ten-second duration and empty buffer. -/
def seekPlayingSession : SessionState :=
  { state := PlayerState.playing
    position := 1
    duration := some 10
    buffer := BufferManager.new {}
    analytics_enabled := true }

/-- Counterexample to claim C9 as stated: seeking to 5 on an idle session
(duration 10) fails with `InvalidStateTransition` before the position is
written, so `position()` still returns 0, not `clamp(5, 0, 10) = 5`. -/
theorem seek_from_idle_counterexample :
    (seekIdleSession.seek 5).1 =
      .error (Err.invalidStateTransition ("idle") ("seeking")) ∧
    (seekIdleSession.seek 5).2.1.position = 0 ∧
    seekIdleSession.seek_clamped 5 = 5 ∧ (0 : ℚ) ≠ 5 := by
  refine ⟨rfl, ?_, ?_, by norm_num⟩ <;> decide

/-- Claim C9 (amended): `seek(p)` followed by `position()` returns
`clamp(p, 0, duration)` (known duration) or `max(0, p)` only when the
session's state can transition to `Seeking` — that is, from `Playing`,
`Paused` or `Ended`; from any other state (including `Idle`, `Loading`,
`Buffering` and `Seeking` itself) the call fails with
`InvalidStateTransition` and leaves the session, in particular its
position, unchanged. -/
theorem seek_position_spec (s : SessionState) (p : ℚ) :
    ((s.state = PlayerState.playing ∨ s.state = PlayerState.paused ∨
        s.state = PlayerState.ended) →
      (s.seek p).1 = .ok () ∧ (s.seek p).2.1.position = s.seek_clamped p) ∧
    (¬ (s.state = PlayerState.playing ∨ s.state = PlayerState.paused ∨
        s.state = PlayerState.ended) →
      s.seek p = (.error (Err.invalidStateTransition s.state.toDisplay
        PlayerState.seeking.toDisplay), s, [])) := by
  constructor
  · intro hcond
    have hcan : s.state.can_transition_to PlayerState.seeking = true :=
      (can_seek_iff s.state).mpr hcond
    unfold SessionState.seek
    rw [SessionState.set_state, if_pos hcan]
    simp only []
    split
    · constructor
      · simp [SessionState.set_state, PlayerState.can_transition_to]
      · simp [SessionState.set_state, PlayerState.can_transition_to]
    · constructor
      · simp [SessionState.set_state, PlayerState.can_transition_to]
      · simp [SessionState.set_state, PlayerState.can_transition_to]
  · intro hcond
    have hcan : ¬ s.state.can_transition_to PlayerState.seeking = true :=
      fun hc => hcond ((can_seek_iff s.state).mp hc)
    unfold SessionState.seek
    rw [SessionState.set_state, if_neg hcan]

/-- Witness for the seek/position theorem, instantiated at the playing
session: both conjuncts hold at the concrete input. -/
theorem seek_position_spec_witness :
    ((seekPlayingSession.state = PlayerState.playing ∨
        seekPlayingSession.state = PlayerState.paused ∨
        seekPlayingSession.state = PlayerState.ended) →
      (seekPlayingSession.seek 5).1 = .ok () ∧
      (seekPlayingSession.seek 5).2.1.position = seekPlayingSession.seek_clamped 5) ∧
    (¬ (seekPlayingSession.state = PlayerState.playing ∨
        seekPlayingSession.state = PlayerState.paused ∨
        seekPlayingSession.state = PlayerState.ended) →
      seekPlayingSession.seek 5 =
        (.error (Err.invalidStateTransition seekPlayingSession.state.toDisplay
          PlayerState.seeking.toDisplay), seekPlayingSession, [])) :=
  seek_position_spec seekPlayingSession 5

/-- Claim C10: every `Seek` analytics event emitted by `seek` carries a
`from` field equal to its `to` field, both the clamped target: the
session's position is overwritten with the clamped target before the
event payload reads it back, so the pre-seek position is never reported. -/
theorem seek_event_from_equals_to (s : SessionState) (p fromPos toPos : ℚ)
    (h : AnalyticsEvent.seekEvent fromPos toPos ∈ (s.seek p).2.2) :
    fromPos = s.seek_clamped p ∧ toPos = s.seek_clamped p := by
  by_cases hcan : s.state.can_transition_to PlayerState.seeking = true
  · unfold SessionState.seek at h
    rw [SessionState.set_state, if_pos hcan] at h
    simp only [SessionState.set_state, List.mem_append] at h
    split_ifs at h <;> simp_all
  · unfold SessionState.seek at h
    rw [SessionState.set_state, if_neg hcan] at h
    simp at h

/-- Witness for the seek-event theorem: seeking to 5 on the playing
session emits `Seek{from = 5, to = 5}`, and 5 is the clamped target. -/
theorem seek_event_from_equals_to_witness :
    (AnalyticsEvent.seekEvent 5 5 ∈ (seekPlayingSession.seek 5).2.2) ∧
    ((5 : ℚ) = seekPlayingSession.seek_clamped 5 ∧
     (5 : ℚ) = seekPlayingSession.seek_clamped 5) :=
  ⟨by decide, seek_event_from_equals_to seekPlayingSession 5 5 5 (by decide)⟩

end Kino
